import Mathlib

/-!
Shallow embedding of the signal-generation core of the simulated-NIRS
cognitive-load visualizer (src/app.py).  Machine floats are modelled as
real numbers; the unseeded Gaussian noise draws are modelled as an
explicit argument `e : ℕ → ℝ` giving the realization of each draw.
-/

noncomputable section

namespace NIRS

/-- Embedding of `np.linspace(a, b, n)`: `n` evenly spaced samples over
`[a, b]` with both endpoints included (`i`-th sample, `0 ≤ i < n`). -/
def linspace (a b : ℝ) (n : ℕ) (i : ℕ) : ℝ :=
  a + (b - a) * i / ((n - 1 : ℕ) : ℝ)

/-- Embedding of `hrf` (src/app.py lines 34-39) at its fixed default
constants `peak = 6`, `under = 16`, `ratio = 0.166`. -/
def hrf (t : ℝ) : ℝ :=
  t ^ 6 * Real.exp (-t) / (Nat.factorial 6 : ℝ)
    - 0.166 * (t ^ 16 * Real.exp (-t)) / (Nat.factorial 16 : ℝ)

/-- A task's two scalar parameters (`{"amp": .., "freq": ..}`). -/
structure TaskParams where
  amp : ℝ
  freq : ℝ

/-- Embedding of the `task_params` dict lookup (src/app.py lines 44-50,
60): `some` of the task's parameters for the five fixed names, `none`
(a `KeyError`, spec name `UnknownTaskError`) otherwise. -/
def lookupTask (s : String) : Option TaskParams :=
  if s = "Resting State" then some ⟨0.2, 0.1⟩
  else if s = "Visual Task" then some ⟨1.0, 0.25⟩
  else if s = "Language Task" then some ⟨0.8, 0.2⟩
  else if s = "Motor Task" then some ⟨1.2, 0.3⟩
  else if s = "Cognitive Test" then some ⟨1.5, 0.35⟩
  else none

/-- The five fixed task names offered by the control surface. -/
def validTaskNames : List String :=
  ["Resting State", "Visual Task", "Language Task", "Motor Task", "Cognitive Test"]

/-- Number of samples: `len(t)` where `t = np.linspace(0, d, d * 20)`. -/
def numSamples (d : ℕ) : ℕ := d * 20

/-- The time vector `t = np.linspace(0, duration, duration * 20)`
(src/app.py line 59), `i`-th sample. -/
def timeFun (d : ℕ) (i : ℕ) : ℝ := linspace 0 (d : ℝ) (numSamples d) i

/-- The auxiliary HRF samples `base_hrf = hrf(np.linspace(0, 30, len(t)))`
(src/app.py line 63), `i`-th sample. -/
def baseHrf (d : ℕ) (i : ℕ) : ℝ := hrf (linspace 0 30 (numSamples d) i)

/-- The uniform kernel `np.ones(5) / 5` (only indices `0..4` are read). -/
def uniformKernel5 : ℕ → ℝ := fun _ => (1 : ℝ) / 5

/-- Embedding of full discrete convolution `np.convolve(a, v)` for a
kernel of length `m` and a signal of length `n`: output sample `j` is
`Σ_k a[k] * v[j-k]` over the index pairs that are in range. -/
def convFull (a v : ℕ → ℝ) (m n : ℕ) (j : ℕ) : ℝ :=
  ∑ k ∈ Finset.range m, if k ≤ j ∧ j - k < n then a k * v (j - k) else 0

/-- Embedding of `np.convolve(a, v, mode="same")`: the centered slice of
the full convolution, of length `max m n`; sample `i` of the slice is
sample `i + (min m n - 1) / 2` of the full output. -/
def convSame (a v : ℕ → ℝ) (m n : ℕ) (i : ℕ) : ℝ :=
  convFull a v m n (i + (min m n - 1) / 2)

/-- A length-`n` signal extended by zero outside `0 ≤ j < n`: the
zero-padding the convolution applies at the boundaries. -/
def zpad (f : ℕ → ℝ) (n : ℕ) (j : ℤ) : ℝ :=
  if 0 ≤ j ∧ j < (n : ℤ) then f j.toNat else 0

/-- Embedding of `np.convolve(np.ones(5) / 5, base_hrf, mode="same")`
(src/app.py line 66), `i`-th sample. -/
def smoothedHrf (d : ℕ) (i : ℕ) : ℝ :=
  convSame uniformKernel5 (baseHrf d) 5 (numSamples d) i

/-- The noiseless part of `signal` (src/app.py lines 64-67):
`amp * sin(2π * freq * t[i])` plus the smoothed HRF sample. -/
def cleanSignal (p : TaskParams) (d : ℕ) (i : ℕ) : ℝ :=
  p.amp * Real.sin (2 * Real.pi * p.freq * timeFun d i) + smoothedHrf d i

/-- Value of `signal` after `signal += noise_level * np.random.randn(len(t))`
(src/app.py line 68); `e i` is the realization of the `i`-th standard
normal draw. -/
def signal (p : TaskParams) (d : ℕ) (nl : ℝ) (e : ℕ → ℝ) (i : ℕ) : ℝ :=
  cleanSignal p d i + nl * e i

/-- Channel `oxy = signal + 0.5 * np.sin(0.1 * np.pi * t)` (src/app.py line 71). -/
def oxy (p : TaskParams) (d : ℕ) (nl : ℝ) (e : ℕ → ℝ) (i : ℕ) : ℝ :=
  signal p d nl e i + 0.5 * Real.sin (0.1 * Real.pi * timeFun d i)

/-- Channel `deoxy = -0.6 * signal + 0.2 * np.sin(0.1 * np.pi * t)`
(src/app.py line 72). -/
def deoxy (p : TaskParams) (d : ℕ) (nl : ℝ) (e : ℕ → ℝ) (i : ℕ) : ℝ :=
  -0.6 * signal p d nl e i + 0.2 * Real.sin (0.1 * Real.pi * timeFun d i)

/-- Arithmetic mean (`np.mean`) of the first `n` samples of `f`. -/
def meanF (n : ℕ) (f : ℕ → ℝ) : ℝ := (∑ i ∈ Finset.range n, f i) / n

/-- The denominator of the oxygenation index:
`np.mean(oxy) + abs(np.mean(deoxy)) + 1e-5` (src/app.py line 85). -/
def coiDenom (p : TaskParams) (d : ℕ) (nl : ℝ) (e : ℕ → ℝ) : ℝ :=
  meanF (numSamples d) (oxy p d nl e) + |meanF (numSamples d) (deoxy p d nl e)| + 1e-5

/-- The cerebral oxygenation index
`coi = np.mean(oxy) / (np.mean(oxy) + abs(np.mean(deoxy)) + 1e-5)`
(src/app.py line 85). -/
def coi (p : TaskParams) (d : ℕ) (nl : ℝ) (e : ℕ → ℝ) : ℝ :=
  meanF (numSamples d) (oxy p d nl e) / coiDenom p d nl e

/-- The three interpretation labels (src/app.py lines 89-94). -/
inductive Interpretation where
  | highOxygenation
  | moderateOxygenation
  | lowOxygenation
deriving DecidableEq

/-- Embedding of the interpretation branch (src/app.py lines 89-94):
`if coi > 0.55: high; elif coi > 0.45: moderate; else: low`. -/
def classify (c : ℝ) : Interpretation :=
  if c > 0.55 then Interpretation.highOxygenation
  else if c > 0.45 then Interpretation.moderateOxygenation
  else Interpretation.lowOxygenation

/-- The time vector as a sequence, `np.linspace(0, d, d * 20)`. -/
def timeList (d : ℕ) : List ℝ :=
  (List.range (numSamples d)).map (timeFun d)

/-- The oxy channel as a sequence. -/
def oxyList (p : TaskParams) (d : ℕ) (nl : ℝ) (e : ℕ → ℝ) : List ℝ :=
  (List.range (numSamples d)).map (oxy p d nl e)

/-- The deoxy channel as a sequence. -/
def deoxyList (p : TaskParams) (d : ℕ) (nl : ℝ) (e : ℕ → ℝ) : List ℝ :=
  (List.range (numSamples d)).map (deoxy p d nl e)

/-- The generator's complete output record (spec §3 `SimulationResult`). -/
structure SimulationResult where
  time : List ℝ
  oxy : List ℝ
  deoxy : List ℝ
  oxygenation_index : ℝ

/-- The generation error (spec name `UnknownTaskError`; in the code the
dict lookup `task_params[task]` raises `KeyError`). -/
inductive SimError where
  | unknownTaskError
deriving DecidableEq

/-- The whole simulation block (src/app.py lines 55-85) as one function:
resolve the task name, then build time vector, channels and index.  An
unknown name fails before any output is produced. -/
def generate (name : String) (d : ℕ) (nl : ℝ) (e : ℕ → ℝ) :
    Except SimError SimulationResult :=
  match lookupTask name with
  | none => Except.error SimError.unknownTaskError
  | some p =>
      Except.ok ⟨timeList d, oxyList p d nl e, deoxyList p d nl e, coi p d nl e⟩

/-- Valid durations: the slider offers integers 5..30 (src/app.py line 26). -/
def ValidDuration (d : ℕ) : Prop := 5 ≤ d ∧ d ≤ 30

instance (d : ℕ) : Decidable (ValidDuration d) := by
  unfold ValidDuration; infer_instance

/-- Valid noise levels: the slider offers 0.0..0.5 (src/app.py line 27). -/
def ValidNoise (nl : ℝ) : Prop := 0 ≤ nl ∧ nl ≤ 0.5

/-- The Resting State task parameters, `{"amp": 0.2, "freq": 0.1}`. -/
def restingParams : TaskParams := ⟨0.2, 0.1⟩

/-- Mean of the shared slow-drift factor `sin(0.1π * t[i])` over the
100 samples of a 5-second run (a nonnegative quantity: every sample of
that run has `0.1π * t[i]` in `[0, π/2]`). -/
def driftMean5 : ℝ :=
  meanF (numSamples 5) (fun i => Real.sin (0.1 * Real.pi * timeFun 5 i))

/-- The constant signal value that makes the index denominator vanish
for a 5-second Resting State run. -/
def sCE : ℝ := -1.75 * driftMean5 - 2.5e-5

/-- A concrete realization of the 100 noise draws which, at noise level
0.5, forces every sample of `signal` to the constant `sCE`. -/
def noiseCE : ℕ → ℝ := fun i => 2 * (sCE - cleanSignal restingParams 5 i)

/-- A concrete realization of the noise draws which, at noise level 0.5,
cancels the clean signal exactly (so the oxy channel is pure drift). -/
def noiseW : ℕ → ℝ := fun i => -2 * cleanSignal restingParams 5 i

end NIRS

namespace NIRS

/-- C10: for every task parameters, duration, noise level, noise
realization and sample index, `deoxy[i] + 0.6 * oxy[i] =
0.5 * sin(0.1π * time[i])`: the signal term cancels exactly, so this
weighted sum of the channels depends only on the time grid.  Stated for
all inputs, which covers in particular every valid combination. -/
theorem c10_channel_linear_relation (p : TaskParams) (d : ℕ) (nl : ℝ)
    (e : ℕ → ℝ) (i : ℕ) :
    deoxy p d nl e i + 0.6 * oxy p d nl e i
      = 0.5 * Real.sin (0.1 * Real.pi * timeFun d i) := by
  unfold deoxy oxy
  ring

/-- C4: with `noise_level = 0`, two runs with the same task parameters
and duration but arbitrary (different) noise realizations produce
identical oxy and deoxy sequences: the noise term `0 * e i` contributes
exactly zero, so the output depends only on task and duration. -/
theorem c4_determinism_zero_noise (p : TaskParams) (d : ℕ)
    (e₁ e₂ : ℕ → ℝ) :
    oxyList p d 0 e₁ = oxyList p d 0 e₂ ∧
    deoxyList p d 0 e₁ = deoxyList p d 0 e₂ := by
  have hsig : ∀ e : ℕ → ℝ, ∀ i, signal p d 0 e i = cleanSignal p d i := by
    intro e i
    unfold signal
    ring
  constructor
  · unfold oxyList
    apply List.map_congr_left
    intro i _
    unfold oxy
    rw [hsig e₁, hsig e₂]
  · unfold deoxyList
    apply List.map_congr_left
    intro i _
    unfold deoxy
    rw [hsig e₁, hsig e₂]

/-- C9: with `noise_level = 0`, each output sample has the closed form
`oxy[i] = amp * sin(2π * freq * t[i]) + smoothed_hrf[i] + 0.5 * sin(0.1π * t[i])`
and
`deoxy[i] = -0.6 * (amp * sin(2π * freq * t[i]) + smoothed_hrf[i]) + 0.2 * sin(0.1π * t[i])`,
where `amp`/`freq` are the parameters looked up for the task name. -/
theorem c9_zero_noise_closed_form (name : String) (p : TaskParams)
    (_hp : lookupTask name = some p) (d : ℕ) (e : ℕ → ℝ) (i : ℕ) :
    oxy p d 0 e i
      = p.amp * Real.sin (2 * Real.pi * p.freq * timeFun d i)
          + smoothedHrf d i + 0.5 * Real.sin (0.1 * Real.pi * timeFun d i) ∧
    deoxy p d 0 e i
      = -0.6 * (p.amp * Real.sin (2 * Real.pi * p.freq * timeFun d i)
          + smoothedHrf d i) + 0.2 * Real.sin (0.1 * Real.pi * timeFun d i) := by
  unfold oxy deoxy signal cleanSignal
  constructor <;> ring

/-- C9 witness: the closed forms hold at the concrete input
task "Resting State", duration 10, sample 0. -/
theorem c9_zero_noise_closed_form_witness :
    lookupTask "Resting State" = some ⟨0.2, 0.1⟩ ∧
    (oxy ⟨0.2, 0.1⟩ 10 0 (fun _ => 0) 0
      = (0.2 : ℝ) * Real.sin (2 * Real.pi * 0.1 * timeFun 10 0)
          + smoothedHrf 10 0 + 0.5 * Real.sin (0.1 * Real.pi * timeFun 10 0) ∧
    deoxy ⟨0.2, 0.1⟩ 10 0 (fun _ => 0) 0
      = -0.6 * ((0.2 : ℝ) * Real.sin (2 * Real.pi * 0.1 * timeFun 10 0)
          + smoothedHrf 10 0) + 0.2 * Real.sin (0.1 * Real.pi * timeFun 10 0)) :=
  ⟨rfl, c9_zero_noise_closed_form "Resting State" ⟨0.2, 0.1⟩ rfl 10 (fun _ => 0) 0⟩

/-- C2: for every valid duration (and any task parameters and noise),
the three output sequences all have length `duration_seconds * 20`. -/
theorem c2_length_invariant (p : TaskParams) (d : ℕ) (_hd : ValidDuration d)
    (nl : ℝ) (e : ℕ → ℝ) :
    (timeList d).length = d * 20 ∧
    (oxyList p d nl e).length = d * 20 ∧
    (deoxyList p d nl e).length = d * 20 := by
  unfold timeList oxyList deoxyList numSamples
  simp

/-- C2 witness: the length invariant at the concrete valid input
duration 5 with the Resting State parameters and zero noise. -/
theorem c2_length_invariant_witness :
    ValidDuration 5 ∧
    ((timeList 5).length = 5 * 20 ∧
     (oxyList ⟨0.2, 0.1⟩ 5 0 (fun _ => 0)).length = 5 * 20 ∧
     (deoxyList ⟨0.2, 0.1⟩ 5 0 (fun _ => 0)).length = 5 * 20) :=
  ⟨by decide, c2_length_invariant ⟨0.2, 0.1⟩ 5 (by decide) 0 (fun _ => 0)⟩

/-- C3: for every valid duration, the time vector starts at 0 exactly,
ends at `duration_seconds` exactly, and is strictly increasing at every
consecutive pair of indices. -/
theorem c3_time_axis (d : ℕ) (hd : ValidDuration d) :
    (timeList d)[0]? = some 0 ∧
    (timeList d)[numSamples d - 1]? = some (d : ℝ) ∧
    List.Chain' (fun x y => x < y) (timeList d) := by
  obtain ⟨h5, _⟩ := hd
  have hn : 100 ≤ numSamples d := by unfold numSamples; omega
  have hx : (0 : ℝ) < ((numSamples d - 1 : ℕ) : ℝ) := by
    have h1 : 1 ≤ numSamples d - 1 := by omega
    exact_mod_cast Nat.lt_of_lt_of_le Nat.zero_lt_one h1
  refine ⟨?_, ?_, ?_⟩
  · rw [timeList, List.getElem?_map, List.getElem?_range (by omega)]
    unfold timeFun linspace
    norm_num
  · rw [timeList, List.getElem?_map, List.getElem?_range (by omega)]
    rw [Option.map_some']
    congr 1
    unfold timeFun linspace
    rw [zero_add, sub_zero, mul_div_assoc, div_self (ne_of_gt hx), mul_one]
  · rw [List.chain'_iff_get]
    intro i hi
    simp only [timeList, List.length_map, List.length_range] at hi
    simp only [timeList, List.get_eq_getElem, List.getElem_map, List.getElem_range]
    unfold timeFun linspace
    have hd0 : (0 : ℝ) < (d : ℝ) := by
      exact_mod_cast Nat.lt_of_lt_of_le (by omega) h5
    simp only [zero_add, sub_zero]
    have hlt : ((i : ℝ)) < ((i + 1 : ℕ) : ℝ) := by exact_mod_cast Nat.lt_succ_self i
    exact div_lt_div_of_pos_right (mul_lt_mul_of_pos_left hlt hd0) hx

/-- C3 witness: the time-axis property at the concrete valid duration 5. -/
theorem c3_time_axis_witness :
    ValidDuration 5 ∧
    ((timeList 5)[0]? = some 0 ∧
     (timeList 5)[numSamples 5 - 1]? = some ((5 : ℕ) : ℝ) ∧
     List.Chain' (fun x y => x < y) (timeList 5)) :=
  ⟨by decide, c3_time_axis 5 (by decide)⟩

/-- C5: the classifier realizes the documented boundary semantics:
`coi > 0.55` gives high, `0.45 < coi ≤ 0.55` gives moderate,
`coi ≤ 0.45` gives low; in particular `classify 0.56 = high`,
`classify 0.50 = moderate` and `classify 0.45 = low`. -/
theorem c5_classification_boundaries :
    (∀ c : ℝ, classify c = Interpretation.highOxygenation ↔ 0.55 < c) ∧
    (∀ c : ℝ, classify c = Interpretation.moderateOxygenation ↔
        0.45 < c ∧ c ≤ 0.55) ∧
    (∀ c : ℝ, classify c = Interpretation.lowOxygenation ↔ c ≤ 0.45) ∧
    classify 0.56 = Interpretation.highOxygenation ∧
    classify 0.5 = Interpretation.moderateOxygenation ∧
    classify 0.45 = Interpretation.lowOxygenation := by
  have hh : ∀ c : ℝ, classify c = Interpretation.highOxygenation ↔ 0.55 < c := by
    intro c
    unfold classify
    split_ifs with h1 h2 <;> simp_all
  have hm : ∀ c : ℝ, classify c = Interpretation.moderateOxygenation ↔
      0.45 < c ∧ c ≤ 0.55 := by
    intro c
    unfold classify
    split_ifs with h1 h2 <;> simp_all
  have hl : ∀ c : ℝ, classify c = Interpretation.lowOxygenation ↔ c ≤ 0.45 := by
    intro c
    unfold classify
    split_ifs with h1 h2 <;> simp_all
    linarith
  refine ⟨hh, hm, hl, ?_, ?_, ?_⟩
  · rw [hh]; norm_num
  · rw [hm]; norm_num
  · rw [hl]

/-- C6: the generator rejects the non-task name "Not A Task" (duration
10, noise 0.1) with `UnknownTaskError` and produces no result, while for
each of the five fixed names it fully succeeds with a complete
`SimulationResult`. -/
theorem c6_unknown_task_rejection (e : ℕ → ℝ) :
    generate "Not A Task" 10 0.1 e = Except.error SimError.unknownTaskError ∧
    ∀ name d nl f, name ∈ validTaskNames →
      ∃ r, generate name d nl f = Except.ok r := by
  constructor
  · rfl
  · intro name d nl f hmem
    fin_cases hmem <;> exact ⟨_, rfl⟩

/-- C6 witness: at the concrete valid name "Resting State" (duration 7,
noise 0.2) generation succeeds. -/
theorem c6_unknown_task_rejection_witness :
    "Resting State" ∈ validTaskNames ∧
    (∃ r, generate "Resting State" 7 0.2 (fun _ => 0) = Except.ok r) :=
  ⟨by decide,
   (c6_unknown_task_rejection (fun _ => 0)).2 "Resting State" 7 0.2
     (fun _ => 0) (by decide)⟩

/-- C7: the HRF is the pure total function
`hrf t = t^6 * e^(-t) / 6! - 0.166 * t^16 * e^(-t) / 16!` with the fixed
constants `peak = 6`, `under = 16`, `ratio = 0.166` (here with the
factorials evaluated), and the generator evaluates exactly this function
on its auxiliary grid to obtain `base_hrf`.  Being a Lean function on ℝ,
it is deterministic, side-effect free and total on every grid point. -/
theorem c7_hrf_formula :
    (∀ t : ℝ, hrf t = t ^ 6 * Real.exp (-t) / 720
        - 0.166 * (t ^ 16 * Real.exp (-t)) / 20922789888000) ∧
    (∀ d i, baseHrf d i = hrf (linspace 0 30 (numSamples d) i)) := by
  constructor
  · intro t
    unfold hrf
    norm_num [Nat.factorial]
  · intro d i
    rfl

/-- The centered same-length uniform length-5 convolution is the 5-tap
moving average with zero padding at the boundaries. -/
lemma convSame_uniform5 (v : ℕ → ℝ) (n : ℕ) (hn : 5 ≤ n) (i : ℕ) :
    convSame uniformKernel5 v 5 n i
      = (1 / 5) * ∑ k ∈ Finset.Icc (-2 : ℤ) 2, zpad v n ((i : ℤ) + k) := by
  have hmin : min 5 n = 5 := Nat.min_eq_left hn
  have hoff : convSame uniformKernel5 v 5 n i
      = convFull uniformKernel5 v 5 n (i + 2) := by
    unfold convSame
    rw [hmin]
  have hIcc : Finset.Icc (-2 : ℤ) 2
      = (Finset.range 5).image (fun m : ℕ => 2 - (m : ℤ)) := by decide
  rw [hoff, hIcc, Finset.sum_image (by intro x hx y hy hxy; omega),
    Finset.mul_sum]
  unfold convFull uniformKernel5 zpad
  apply Finset.sum_congr rfl
  intro k hk
  rw [mul_ite, mul_zero]
  have hiff : (k ≤ i + 2 ∧ i + 2 - k < n)
      ↔ (0 ≤ (i : ℤ) + (2 - (k : ℤ)) ∧ (i : ℤ) + (2 - (k : ℤ)) < (n : ℤ)) := by
    omega
  have hidx : ((i : ℤ) + (2 - (k : ℤ))).toNat = i + 2 - k := by omega
  rw [hidx]
  exact if_congr hiff rfl rfl

/-- C8: for every valid duration, `base_hrf` is `hrf` evaluated on a
grid of `duration * 20` evenly spaced samples over the fixed interval
`[0, 30]`, and the smoothing step is exactly the centered length-5
uniform moving average with out-of-range taps taken as zero:
`smoothed_hrf[i] = (1/5) * Σ_{k = -2..2} base_hrf[i + k]`. -/
theorem c8_hrf_grid_and_smoothing (d : ℕ) (hd : ValidDuration d) (i : ℕ) :
    baseHrf d i = hrf (linspace 0 30 (numSamples d) i) ∧
    smoothedHrf d i
      = (1 / 5) * ∑ k ∈ Finset.Icc (-2 : ℤ) 2,
          zpad (baseHrf d) (numSamples d) ((i : ℤ) + k) := by
  refine ⟨rfl, ?_⟩
  apply convSame_uniform5
  obtain ⟨h5, _⟩ := hd
  unfold numSamples
  omega

/-- C8 witness: the smoothing identity at the concrete valid duration 5
and sample index 3. -/
theorem c8_hrf_grid_and_smoothing_witness :
    ValidDuration 5 ∧
    (baseHrf 5 3 = hrf (linspace 0 30 (numSamples 5) 3) ∧
     smoothedHrf 5 3
       = (1 / 5) * ∑ k ∈ Finset.Icc (-2 : ℤ) 2,
           zpad (baseHrf 5) (numSamples 5) ((3 : ℤ) + k)) :=
  ⟨by decide, c8_hrf_grid_and_smoothing 5 (by decide) 3⟩

/-- The mean of `n` samples of an affine image of a sequence. -/
lemma meanF_shift_scale (n : ℕ) (hn : n ≠ 0) {c a : ℝ} {f : ℕ → ℝ} :
    meanF n (fun i => c + a * f i) = c + a * meanF n f := by
  unfold meanF
  rw [Finset.sum_add_distrib, Finset.sum_const, Finset.card_range, ← Finset.mul_sum]
  have hn0 : ((n : ℝ)) ≠ 0 := Nat.cast_ne_zero.mpr hn
  field_simp
  ring

/-- Means of pointwise equal sequences agree. -/
lemma meanF_congr (n : ℕ) (f g : ℕ → ℝ) (h : ∀ i, f i = g i) :
    meanF n f = meanF n g := by
  unfold meanF
  congr 1
  exact Finset.sum_congr rfl fun i _ => h i

/-- On a 5-second run every drift sample `sin(0.1π * t[i])` is
nonnegative, hence so is the drift mean. -/
lemma driftMean5_nonneg : 0 ≤ driftMean5 := by
  unfold driftMean5 meanF
  apply div_nonneg _ (by positivity)
  apply Finset.sum_nonneg
  intro i hi
  have hi99 : (i : ℝ) ≤ 99 := by
    have : i ≤ 99 := by
      simp only [numSamples, Finset.mem_range] at hi
      omega
    exact_mod_cast this
  have ht : timeFun 5 i = 5 * (i : ℝ) / 99 := by
    unfold timeFun linspace numSamples
    norm_num
  have ht0 : 0 ≤ timeFun 5 i := by rw [ht]; positivity
  have ht5 : timeFun 5 i ≤ 5 := by
    rw [ht, div_le_iff₀ (by norm_num)]
    nlinarith
  have hpi := Real.pi_pos
  apply Real.sin_nonneg_of_nonneg_of_le_pi
  · apply mul_nonneg (by positivity) ht0
  · nlinarith [mul_nonneg (le_of_lt hpi) (sub_nonneg.mpr ht5)]

/-- With the adversarial draws `noiseCE` at noise level 0.5, every
signal sample equals the constant `sCE`. -/
lemma signalCE_const (i : ℕ) :
    signal restingParams 5 0.5 noiseCE i = sCE := by
  unfold signal noiseCE
  ring

/-- Oxy-channel mean under the adversarial draws. -/
lemma meanOxyCE :
    meanF (numSamples 5) (oxy restingParams 5 0.5 noiseCE)
      = sCE + 0.5 * driftMean5 := by
  have h : ∀ i, oxy restingParams 5 0.5 noiseCE i
      = sCE + 0.5 * Real.sin (0.1 * Real.pi * timeFun 5 i) := by
    intro i
    unfold oxy
    rw [signalCE_const]
  rw [meanF_congr _ _ _ h, meanF_shift_scale _ (by decide)]
  rfl

/-- Deoxy-channel mean under the adversarial draws. -/
lemma meanDeoxyCE :
    meanF (numSamples 5) (deoxy restingParams 5 0.5 noiseCE)
      = -0.6 * sCE + 0.2 * driftMean5 := by
  have h : ∀ i, deoxy restingParams 5 0.5 noiseCE i
      = -0.6 * sCE + 0.2 * Real.sin (0.1 * Real.pi * timeFun 5 i) := by
    intro i
    unfold deoxy
    rw [signalCE_const]
  rw [meanF_congr _ _ _ h, meanF_shift_scale _ (by decide)]
  rfl

/-- C1 counterexample: at the valid input (Resting State, duration 5,
noise level 0.5) there is a realization of the noise draws, `noiseCE`,
at which the denominator `mean(oxy) + |mean(deoxy)| + 1e-5` of the
oxygenation index is exactly zero, so `coi` is a division by zero
there: the claim's universal quantification over noise realizations
fails. -/
theorem c1_denominator_zero_counterexample :
    ValidDuration 5 ∧ ValidNoise 0.5 ∧
    lookupTask "Resting State" = some restingParams ∧
    coiDenom restingParams 5 0.5 noiseCE = 0 := by
  refine ⟨by decide, by constructor <;> norm_num, rfl, ?_⟩
  unfold coiDenom
  rw [meanOxyCE, meanDeoxyCE]
  have hM := driftMean5_nonneg
  have habs : |(-0.6 * sCE + 0.2 * driftMean5)|
      = -0.6 * sCE + 0.2 * driftMean5 := by
    apply abs_of_nonneg
    unfold sCE
    linarith
  rw [habs]
  unfold sCE
  ring

/-- C1 amended: for every task parameters, duration, noise level and
noise realization at which `mean(oxy)` is nonnegative — in particular in
the degenerate case where `mean(oxy)` and `mean(deoxy)` are both exactly
0 — the denominator of the oxygenation index is strictly positive (at
least `1e-5`), so `coi` is finite there. -/
theorem c1_denominator_pos_of_meanOxy_nonneg (p : TaskParams) (d : ℕ)
    (nl : ℝ) (e : ℕ → ℝ)
    (h : 0 ≤ meanF (numSamples d) (oxy p d nl e)) :
    0 < coiDenom p d nl e := by
  unfold coiDenom
  have habs := abs_nonneg (meanF (numSamples d) (deoxy p d nl e))
  have heps : (0 : ℝ) < 1e-5 := by norm_num
  linarith

/-- The witness input `noiseW` makes the oxy channel pure drift, whose
mean is nonnegative. -/
lemma meanOxyW_nonneg :
    0 ≤ meanF (numSamples 5) (oxy restingParams 5 0.5 noiseW) := by
  have h : ∀ i, oxy restingParams 5 0.5 noiseW i
      = 0 + 0.5 * Real.sin (0.1 * Real.pi * timeFun 5 i) := by
    intro i
    unfold oxy signal noiseW
    ring
  rw [meanF_congr _ _ _ h, meanF_shift_scale _ (by decide)]
  have hM := driftMean5_nonneg
  unfold driftMean5 at hM
  linarith

/-- C1 amended witness: at the concrete input (Resting State, duration
5, noise level 0.5, draws `noiseW`) the oxy mean is nonnegative and the
denominator is strictly positive. -/
theorem c1_denominator_pos_witness :
    0 ≤ meanF (numSamples 5) (oxy restingParams 5 0.5 noiseW) ∧
    0 < coiDenom restingParams 5 0.5 noiseW :=
  ⟨meanOxyW_nonneg,
   c1_denominator_pos_of_meanOxy_nonneg restingParams 5 0.5 noiseW
     meanOxyW_nonneg⟩

end NIRS
